import Mathlib

/-!
Verification of the mxCamera frame acquisition and distribution pipeline.

The definitions below are shallow embeddings of the C functions in
`src/source/main.c` and the wire structures in `src/include/mxCamera.h`:

* `FrameHeader` / `FrameHeader.bytes`  — `struct frame_header` (packed) and its
  byte serialization as produced by `send(fd, &header, sizeof(header))`.
* `FrameSlot` / `publish` / `try_consume_for_display` — the mutex-protected
  single-slot frame hand-off between `camera_thread` and
  `update_image_display`.
* `unpack_sbggr10_scalar` / `unpack_sbggr10_image` — the RAW10 bit unpacker.
* `scale_pixels` — the nearest-neighbor scaler, including an exact model of the
  single-precision (binary32) arithmetic the C code performs.
* `landscape_image_fit` — the centering compositor.
* `send_frame` / `tcp_sender_iteration` — the TCP streaming path.

Machine integers are modelled as `Nat`/`Int`; byte buffers as `List Nat`;
nullable pointers as `Option`; the network as an oracle giving the result of
each `send` call.
-/

namespace MxCamera

/-! ### Frame header (struct frame_header, mxCamera.h)

The struct is `__attribute__((packed))`, so its serialization is the
concatenation of the little-endian encodings of its fields, with no padding:
six `uint32_t`, one `uint64_t`, and a two-element `uint32_t` array. -/

/-- Little-endian byte serialization of a 32-bit value. -/
def le32 (x : Nat) : List Nat :=
  [x % 256, x / 2 ^ 8 % 256, x / 2 ^ 16 % 256, x / 2 ^ 24 % 256]

/-- Little-endian byte serialization of a 64-bit value. -/
def le64 (x : Nat) : List Nat :=
  le32 (x % 2 ^ 32) ++ le32 (x / 2 ^ 32)

/-- `struct frame_header` from `src/include/mxCamera.h`. -/
structure FrameHeader where
  magic : Nat
  frame_id : Nat
  width : Nat
  height : Nat
  pixfmt : Nat
  size : Nat
  timestamp : Nat
  reserved0 : Nat
  reserved1 : Nat

/-- The bytes sent by `send(fd, &header, sizeof(header), MSG_NOSIGNAL)`: the
packed little-endian layout of `struct frame_header`. -/
def FrameHeader.bytes (h : FrameHeader) : List Nat :=
  le32 h.magic ++ le32 h.frame_id ++ le32 h.width ++ le32 h.height ++
  le32 h.pixfmt ++ le32 h.size ++ le64 h.timestamp ++
  le32 h.reserved0 ++ le32 h.reserved1

/-- The header value built inside `send_frame` (`main.c`): magic is the
constant `0xDEADBEEF` and both reserved words are zero. -/
def send_frame_header (frame_id width height pixfmt size timestamp : Nat) :
    FrameHeader :=
  { magic := 0xDEADBEEF, frame_id := frame_id, width := width, height := height,
    pixfmt := pixfmt, size := size, timestamp := timestamp,
    reserved0 := 0, reserved1 := 0 }

/-- `sizeof(struct frame_header)` for the packed struct. -/
def sizeof_frame_header : Nat := ((send_frame_header 0 0 0 0 0 0).bytes).length

/-! ### Frame Slot (camera_thread publish / update_image_display consume) -/

/-- The shared slot state protected by `frame_mutex`: `current` models the
`current_frame` global (`none` models `current_frame.data == NULL`), and
`available` models the `frame_available` flag. -/
structure FrameSlot (α : Type) where
  current : Option α
  available : Bool
  deriving DecidableEq, Repr

/-- The publish step performed by `camera_thread` after a successful capture
(under `frame_mutex`): release the previously held frame back to the device,
store the new frame, set `frame_available = 1`, broadcast `frame_ready`.
Returns the new slot state and the frame released back to the device. -/
def publish {α : Type} (s : FrameSlot α) (f : α) : FrameSlot α × Option α :=
  (⟨some f, true⟩, s.current)

/-- Result of one `update_image_display` call. -/
inductive ConsumeResult (α : Type) where
  | skip
  | rendered (f : α)
  | idle
  deriving DecidableEq, Repr

/-- `update_image_display`: `pthread_mutex_trylock` fails (`lockBusy`) ⇒ return
at once with no state change; otherwise, if a frame is available, its data is
non-null and the canvas exists, render it and clear `frame_available`;
otherwise do nothing. -/
def try_consume_for_display {α : Type} (lockBusy canvasPresent : Bool)
    (s : FrameSlot α) : ConsumeResult α × FrameSlot α :=
  if lockBusy then
    (.skip, s)
  else
    match s.current, s.available with
    | some f, true =>
        if canvasPresent then (.rendered f, ⟨some f, false⟩) else (.idle, s)
    | _, _ => (.idle, s)

/-! ### Bit Unpacker (unpack_sbggr10_scalar / unpack_sbggr10_image) -/

/-- `unpack_sbggr10_scalar`: rebuild the 40-bit little-endian group and
extract the four 10-bit samples from its low bits upward. -/
def unpack_sbggr10_scalar (b0 b1 b2 b3 b4 : Nat) : List Nat :=
  let combined := b4 <<< 32 ||| b3 <<< 24 ||| b2 <<< 16 ||| b1 <<< 8 ||| b0
  [combined >>> 0 &&& 0x3FF, combined >>> 10 &&& 0x3FF,
   combined >>> 20 &&& 0x3FF, combined >>> 30 &&& 0x3FF]

/-- The main unpack loop of `unpack_sbggr10_image`:
`while (raw_pos + 5 <= raw_size && pixel_pos + 4 <= max_pixels)`, with
`remaining = max_pixels - pixel_pos`. Each iteration decodes one 5-byte group
and appends its four samples. -/
def unpackLoop : List Nat → Nat → List Nat
  | b0 :: b1 :: b2 :: b3 :: b4 :: rest, remaining =>
      if 4 ≤ remaining then
        unpack_sbggr10_scalar b0 b1 b2 b3 b4 ++ unpackLoop rest (remaining - 4)
      else []
  | _, _ => []

/-- `unpack_sbggr10_image`: null/empty guard, multiple-of-5 guard, main loop,
zero fill up to `width * height`. Buffers are `Option (List Nat)` (`none`
models a NULL pointer); the result pairs the C return value with the output
buffer contents after the call (the first `width * height` slots are written,
the rest of the buffer is untouched). -/
def unpack_sbggr10_image (raw_data : Option (List Nat))
    (output_pixels : Option (List Nat)) (width height : Nat) :
    Int × Option (List Nat) :=
  match raw_data, output_pixels with
  | some raw, some buf =>
      if raw.length = 0 then (-1, some buf)
      else if raw.length % 5 ≠ 0 then (-1, some buf)
      else
        let expected_pixels := width * height
        let available_pixels := raw.length / 5 * 4
        let max_pixels := min available_pixels expected_pixels
        let produced := unpackLoop raw max_pixels
        let content := produced ++ List.replicate (expected_pixels - produced.length) 0
        (0, some (content ++ buf.drop expected_pixels))
  | _, _ => (-1, output_pixels)

/-! ### Compositor (landscape_image_fit)

The display canvas dimensions `DISPLAY_WIDTH × DISPLAY_HEIGHT` are macros
(`FBTFT_LCD_DEFAULT_WIDTH/HEIGHT` from the vendor LCD header); the embedding
takes them as parameters `W H`. Buffers are `List Nat`; the nested copy loops
(including their boundary `break`s) become the recursions `copyCols` /
`copyRows`. -/

/-- The inner column loop of `landscape_image_fit`: copy `n` more pixels of
source row `y` starting at column `x`, breaking when `dst_x` reaches the
canvas width. -/
def copyCols (s : List Nat) (sw y x_off dst_y W : Nat) :
    Nat → Nat → List Nat → List Nat
  | _, 0, buf => buf
  | x, n + 1, buf =>
      if W ≤ x + x_off then buf
      else copyCols s sw y x_off dst_y W (x + 1) n
        (buf.set (dst_y * W + (x + x_off)) (s.getD (y * sw + x) 0))

/-- The outer row loop of `landscape_image_fit`: copy `n` more rows starting
at source row `y`, breaking when `dst_y` reaches the canvas height. -/
def copyRows (s : List Nat) (sw x_off y_off W H cw : Nat) :
    Nat → Nat → List Nat → List Nat
  | _, 0, buf => buf
  | y, n + 1, buf =>
      if H ≤ y + y_off then buf
      else copyRows s sw x_off y_off W H cw (y + 1) n
        (copyCols s sw y x_off (y + y_off) W 0 cw buf)

/-- `landscape_image_fit`: null/dimension guard, clear the canvas to black,
compute the centering offsets with C's truncating division (`Int.tdiv`),
clamp them to 0, crop the copy size to the canvas, and run the copy loops.
Buffer pointers are `Option` (`none` models NULL); the result pairs the C
return value with the destination buffer after the call. -/
def landscape_image_fit (src_buffer : Option (List Nat))
    (src_width src_height : Int) (dst_buffer : Option (List Nat))
    (W H : Nat) : Int × Option (List Nat) :=
  match src_buffer, dst_buffer with
  | some s, some _ =>
      if src_width ≤ 0 ∨ src_height ≤ 0 then (-1, dst_buffer)
      else
        let cleared := List.replicate (W * H) 0
        let x_offset0 := Int.tdiv ((W : Int) - src_width) 2
        let y_offset0 := Int.tdiv ((H : Int) - src_height) 2
        let x_offset := if x_offset0 < 0 then 0 else x_offset0
        let y_offset := if y_offset0 < 0 then 0 else y_offset0
        let copy_w := if (W : Int) < src_width then W else src_width.toNat
        let copy_h := if (H : Int) < src_height then H else src_height.toNat
        (0, some (copyRows s src_width.toNat x_offset.toNat y_offset.toNat W H
          copy_w 0 copy_h cleared))
  | _, _ => (-1, dst_buffer)

/-! ### Scaler (scale_pixels) and its exact binary32 model

`scale_pixels` computes `x_ratio = (float)src_width / dst_width` and
`src_x = (int)(x * x_ratio)` in single-precision floating point. The model
below implements binary32 round-to-nearest-even exactly (for the normal
range): an `F32` value is an unnormalized dyadic rational `m * 2 ^ e`;
`rnd32N` rounds an integer mantissa to 24 significant bits, `divRound`
rounds a quotient `(a / b) * 2 ^ e` (with the exact remainder deciding
ties), and `truncF32` is C's float-to-int truncation for non-negative
values. `bitLen` is the binary length, implemented with structural fuel so
that every definition evaluates by `decide`. -/

structure F32 where
  m : Nat
  e : Int
  deriving DecidableEq, Repr

def bitLenAux : Nat → Nat → Nat
  | 0, _ => 0
  | fuel + 1, n => if n = 0 then 0 else bitLenAux fuel (n / 2) + 1

def bitLen (n : Nat) : Nat := bitLenAux n n

def rnd32N (m : Nat) (e : Int) : F32 :=
  if m < 2 ^ 24 then ⟨m, e⟩
  else
    let L := bitLen m - 1
    let s := L - 23
    let q := m / 2 ^ s
    let r := m % 2 ^ s
    let half := 2 ^ (s - 1)
    let m2 := if r < half then q
      else if half < r then q + 1
      else if q % 2 = 0 then q else q + 1
    ⟨m2, e + s⟩

def divRound (a b : Nat) (e : Int) : F32 :=
  let shift := bitLen b + 25
  let A := a * 2 ^ shift
  let q := A / b
  let r := A % b
  let L := bitLen q - 1
  let s := L - 23
  let q2 := q / 2 ^ s
  let r2 := q % 2 ^ s
  let half := 2 ^ (s - 1)
  let m := if r2 < half then q2
    else if half < r2 then q2 + 1
    else if r = 0 then (if q2 % 2 = 0 then q2 else q2 + 1) else q2 + 1
  ⟨m, e - shift + s⟩

def intToF32 (n : Nat) : F32 := rnd32N n 0

def f32mul (x y : F32) : F32 := rnd32N (x.m * y.m) (x.e + y.e)

def f32div (x y : F32) : F32 :=
  if x.m = 0 then ⟨0, 0⟩ else divRound x.m y.m (x.e - y.e)

def truncF32 (x : F32) : Nat :=
  if 0 ≤ x.e then x.m * 2 ^ x.e.toNat else x.m / 2 ^ (-x.e).toNat

def scale_pixels (src_pixels : List Nat) (src_width src_height : Nat)
    (dst_width dst_height : Nat) : List Nat :=
  let x_ratio := f32div (intToF32 src_width) (intToF32 dst_width)
  let y_ratio := f32div (intToF32 src_height) (intToF32 dst_height)
  (List.range dst_height).flatMap fun y =>
    (List.range dst_width).map fun x =>
      let src_x0 := truncF32 (f32mul (intToF32 x) x_ratio)
      let src_y0 := truncF32 (f32mul (intToF32 y) y_ratio)
      let src_x := if src_width ≤ src_x0 then src_width - 1 else src_x0
      let src_y := if src_height ≤ src_y0 then src_height - 1 else src_y0
      src_pixels.getD (src_y * src_width + src_x) 0

/-! ### Network Consumer (send_frame / tcp_sender_thread) -/

/-- `#define CHUNK_SIZE 1048576` (`main.c`). -/
def CHUNK_SIZE : Nat := 1048576

/-- The frame synchronization marker sent before each wire frame. -/
def frame_sync : String := "---MIXOSENSE---FRAME---"

/-- `to_send = (size - sent) > CHUNK_SIZE ? CHUNK_SIZE : (size - sent)`. -/
def chunk_request (size sent : Nat) : Nat :=
  if CHUNK_SIZE < size - sent then CHUNK_SIZE else size - sent

/-- The chunked payload loop of `send_frame`:
`while (sent < size && !exit_flag)` send one chunk; a non-positive `send`
result aborts with -1, otherwise `sent += result`. The network is an oracle
`sends : call index → requested length → ssize_t result`. Returns the C return
value paired with the list of chunk `send` results that were actually
observed. -/
def send_chunks (sends : Nat → Nat → Int) (exit_flag : Bool) (size : Nat)
    (sent : Nat) (k : Nat) : Int × List Int :=
  if h : sent < size ∧ exit_flag = false then
    let result := sends k (chunk_request size sent)
    if hr : result ≤ 0 then (-1, [result])
    else
      let next := send_chunks sends exit_flag size (sent + result.toNat) (k + 1)
      (next.1, result :: next.2)
  else (0, [])
termination_by size - sent
decreasing_by
  simp_wf
  omega

/-- `send_frame`: send the sync marker (fail with -1 on a short/failed send),
send the 40-byte header (likewise), then stream the payload in chunks.
Oracle call 0 is the sync-marker `send`, call 1 the header `send`, and calls
2, 3, … the chunk `send`s. -/
def send_frame (sends : Nat → Nat → Int) (exit_flag : Bool) (size : Nat) :
    Int × List Int :=
  let sync_len := frame_sync.length
  if sends 0 sync_len ≠ (sync_len : Int) then (-1, [])
  else if sends 1 sizeof_frame_header ≠ (sizeof_frame_header : Int) then (-1, [])
  else send_chunks sends exit_flag size 0 2

/-- The flags of the TCP sender thread that the send-failure branch touches:
`client_connected`, whether `client_fd` is still open, and `screen_on`. -/
structure TcpState where
  client_connected : Bool
  client_fd_open : Bool
  screen_on : Bool
  deriving DecidableEq, Repr

/-- What one pass of the `tcp_sender_thread` loop does next. -/
inductive LoopAction where
  | continueLoop
  | exitLoop
  deriving DecidableEq, Repr

/-- The tail of one `tcp_sender_thread` iteration after `send_frame` returns
(`main.c`): on a negative result close the client socket, clear
`client_connected` and restore the screen; then leave the loop only if
`tcp_enabled` was cleared or `exit_flag` was set. The frame slot (producer
state) is passed through untouched. -/
def tcp_sender_iteration {α : Type} (slot : FrameSlot α) (st : TcpState)
    (send_result : Int) (tcp_enabled exit_flag : Bool) :
    FrameSlot α × TcpState × LoopAction :=
  let st' := if send_result < 0 then
      { st with client_connected := false, client_fd_open := false,
                screen_on := true }
    else st
  if tcp_enabled = false then (slot, st', .exitLoop)
  else if exit_flag = true then (slot, st', .exitLoop)
  else (slot, st', .continueLoop)

end MxCamera

namespace MxCamera

/-! ### Helper lemmas for the unpacker -/

lemma unpack_scalar_length (b0 b1 b2 b3 b4 : Nat) :
    (unpack_sbggr10_scalar b0 b1 b2 b3 b4).length = 4 := rfl

lemma unpack_scalar_lt (b0 b1 b2 b3 b4 : Nat) :
    ∀ v ∈ unpack_sbggr10_scalar b0 b1 b2 b3 b4, v < 1024 := by
  intro v hv
  simp only [unpack_sbggr10_scalar, List.mem_cons, List.mem_singleton,
    List.not_mem_nil, or_false] at hv
  have h1023 : ∀ x : Nat, x &&& 0x3FF < 1024 := fun x =>
    Nat.lt_succ_of_le (Nat.and_le_right)
  rcases hv with h | h | h | h <;> subst h <;> exact h1023 _

/-- The 40-bit combination in `unpack_sbggr10_scalar` equals the little-endian
value of the five bytes. -/
lemma combined_eq (b0 b1 b2 b3 b4 : Nat) (h0 : b0 < 256) (h1 : b1 < 256)
    (h2 : b2 < 256) (h3 : b3 < 256) :
    b4 <<< 32 ||| b3 <<< 24 ||| b2 <<< 16 ||| b1 <<< 8 ||| b0 =
      b0 + 2 ^ 8 * b1 + 2 ^ 16 * b2 + 2 ^ 24 * b3 + 2 ^ 32 * b4 := by
  have e4 : b4 <<< 32 = 2 ^ 32 * b4 := by rw [Nat.shiftLeft_eq]; ring
  have e3 : b3 <<< 24 = 2 ^ 24 * b3 := by rw [Nat.shiftLeft_eq]; ring
  have e2 : b2 <<< 16 = 2 ^ 16 * b2 := by rw [Nat.shiftLeft_eq]; ring
  have e1 : b1 <<< 8 = 2 ^ 8 * b1 := by rw [Nat.shiftLeft_eq]; ring
  rw [e4, e3, e2, e1]
  have s1 : 2 ^ 32 * b4 ||| 2 ^ 24 * b3 = 2 ^ 32 * b4 + 2 ^ 24 * b3 := by
    have hb : 2 ^ 24 * b3 < 2 ^ 32 := by
      calc 2 ^ 24 * b3 ≤ 2 ^ 24 * 255 := Nat.mul_le_mul_left _ (by omega)
        _ < 2 ^ 32 := by norm_num
    rw [← Nat.mul_add_lt_is_or hb b4]
  have s2 : 2 ^ 32 * b4 + 2 ^ 24 * b3 ||| 2 ^ 16 * b2 =
      2 ^ 32 * b4 + 2 ^ 24 * b3 + 2 ^ 16 * b2 := by
    have hrw : 2 ^ 32 * b4 + 2 ^ 24 * b3 = 2 ^ 24 * (2 ^ 8 * b4 + b3) := by ring
    have hb : 2 ^ 16 * b2 < 2 ^ 24 := by
      calc 2 ^ 16 * b2 ≤ 2 ^ 16 * 255 := Nat.mul_le_mul_left _ (by omega)
        _ < 2 ^ 24 := by norm_num
    rw [hrw, ← Nat.mul_add_lt_is_or hb _]
  have s3 : 2 ^ 32 * b4 + 2 ^ 24 * b3 + 2 ^ 16 * b2 ||| 2 ^ 8 * b1 =
      2 ^ 32 * b4 + 2 ^ 24 * b3 + 2 ^ 16 * b2 + 2 ^ 8 * b1 := by
    have hrw : 2 ^ 32 * b4 + 2 ^ 24 * b3 + 2 ^ 16 * b2 =
        2 ^ 16 * (2 ^ 16 * b4 + 2 ^ 8 * b3 + b2) := by ring
    have hb : 2 ^ 8 * b1 < 2 ^ 16 := by
      calc 2 ^ 8 * b1 ≤ 2 ^ 8 * 255 := Nat.mul_le_mul_left _ (by omega)
        _ < 2 ^ 16 := by norm_num
    rw [hrw, ← Nat.mul_add_lt_is_or hb _]
  have s4 : 2 ^ 32 * b4 + 2 ^ 24 * b3 + 2 ^ 16 * b2 + 2 ^ 8 * b1 ||| b0 =
      2 ^ 32 * b4 + 2 ^ 24 * b3 + 2 ^ 16 * b2 + 2 ^ 8 * b1 + b0 := by
    have hrw : 2 ^ 32 * b4 + 2 ^ 24 * b3 + 2 ^ 16 * b2 + 2 ^ 8 * b1 =
        2 ^ 8 * (2 ^ 24 * b4 + 2 ^ 16 * b3 + 2 ^ 8 * b2 + b1) := by ring
    have hb : b0 < 2 ^ 8 := h0
    rw [hrw, ← Nat.mul_add_lt_is_or hb _]
  rw [s1, s2, s3, s4]; ring

/-- Length of the main unpack loop's output: four samples per 5-byte group,
stopping when fewer than five bytes or fewer than four output slots remain. -/
lemma unpackLoop_length (raw : List Nat) (r : Nat) :
    (unpackLoop raw r).length = 4 * min (raw.length / 5) (r / 4) := by
  induction raw, r using unpackLoop.induct with
  | case1 b0 b1 b2 b3 b4 rest r h ih =>
    rw [unpackLoop, if_pos h]
    simp only [List.length_append, ih]
    have h5 : (b0 :: b1 :: b2 :: b3 :: b4 :: rest).length = rest.length + 5 := by
      simp
    rw [h5, unpack_scalar_length]
    omega
  | case2 b0 b1 b2 b3 b4 rest r h =>
    rw [unpackLoop, if_neg h]
    simp only [List.length_nil]
    omega
  | case3 raw r h =>
    rw [unpackLoop.eq_def]
    split
    · rename_i b0 b1 b2 b3 b4 rest
      exact absurd rfl (h b0 b1 b2 b3 b4 rest)
    · have hlt : raw.length < 5 := by
        match raw, h with
        | [], _ => simp
        | [a], _ => simp
        | [a, b], _ => simp
        | [a, b, c], _ => simp
        | [a, b, c, d], _ => simp
        | a :: b :: c :: d :: e :: rest, h => exact absurd rfl (h a b c d e rest)
      simp
      omega

/-- Every sample produced by the unpack loop is a masked 10-bit value. -/
lemma unpackLoop_mem (raw : List Nat) (r : Nat) :
    ∀ v ∈ unpackLoop raw r, v < 1024 := by
  induction raw, r using unpackLoop.induct with
  | case1 b0 b1 b2 b3 b4 rest r h ih =>
    intro v hv
    rw [unpackLoop, if_pos h] at hv
    rcases List.mem_append.1 hv with hv | hv
    · exact unpack_scalar_lt b0 b1 b2 b3 b4 v hv
    · exact ih v hv
  | case2 b0 b1 b2 b3 b4 rest r h =>
    intro v hv
    rw [unpackLoop, if_neg h] at hv
    simp at hv
  | case3 raw r h =>
    intro v hv
    rw [unpackLoop.eq_def] at hv
    split at hv
    · rename_i b0 b1 b2 b3 b4 rest
      exact absurd rfl (h b0 b1 b2 b3 b4 rest)
    · simp at hv

/-! ### Claim theorems: C1, C2, C3 -/

/-- The header built by `send_frame` serializes field by field: the constant
magic, the caller-supplied fields, and zeroed reserved words. -/
lemma send_frame_header_bytes (frame_id width height pixfmt size ts : Nat) :
    (send_frame_header frame_id width height pixfmt size ts).bytes =
      le32 0xDEADBEEF ++ le32 frame_id ++ le32 width ++ le32 height ++
      le32 pixfmt ++ le32 size ++ le64 ts ++ le32 0 ++ le32 0 := rfl

/-- C1 (amended): the Frame Header sent before each streamed frame payload is a
fixed **40-byte** packed record — magic `0xDEADBEEF`, then `frame_id`, `width`,
`height`, `pixel_format`, `size` (u32 each), `timestamp` (u64), and two
reserved u32 words that serialize as zero bytes; for every frame sent by
`send_frame`, the serialized header has exactly 40 bytes. -/
theorem frame_header_serialized_size (frame_id width height pixfmt size ts : Nat) :
    ((send_frame_header frame_id width height pixfmt size ts).bytes).length = 40 ∧
    ((send_frame_header frame_id width height pixfmt size ts).bytes).take 4 =
      [0xEF, 0xBE, 0xAD, 0xDE] ∧
    ((send_frame_header frame_id width height pixfmt size ts).bytes).drop 32 =
      List.replicate 8 0 := by
  rw [send_frame_header_bytes]
  refine ⟨?_, ?_, ?_⟩ <;> simp [le32, le64]

/-- C1 counterexample: the serialized header of a concrete frame sent by
`send_frame` has 40 bytes, not 32 as claimed. -/
theorem frame_header_not_32_bytes :
    ((send_frame_header 0 640 480 0 1000 0).bytes).length = 40 ∧
    ((send_frame_header 0 640 480 0 1000 0).bytes).length ≠ 32 := by
  rw [send_frame_header_bytes]
  refine ⟨by simp [le32, le64], by simp [le32, le64]⟩

/-- C2: frame-slot latest-wins — from any slot state, after `publish A` then
`publish B` (the `camera_thread` update under `frame_mutex`), a single
`update_image_display` call observes B only (and B was the publish that
released A back to the device when A had been stored), and any call made while
the lock is held returns skip immediately with the state unchanged. -/
theorem frame_slot_latest_wins {α : Type} (s : FrameSlot α) (A B : α) :
    (try_consume_for_display false true ((publish ((publish s A).1) B).1) =
      (.rendered B, ⟨some B, false⟩)) ∧
    ((publish ((publish s A).1) B).2 = some A) ∧
    (∀ (canvasPresent : Bool) (s' : FrameSlot α),
      try_consume_for_display true canvasPresent s' = (.skip, s')) := by
  refine ⟨rfl, rfl, fun canvasPresent s' => rfl⟩

/-- C3: the bit unpacker is bit-exact — for any 5-byte group, sample `i`
(`i = 0..3`) equals bits `[10*i, 10*i+10)` of the 40-bit little-endian integer
formed from the five bytes; and the group `[0xFF, 0x03, 0x00, 0x00, 0x00]`
decodes to `[1023, 0, 0, 0]`. -/
theorem unpack_scalar_bit_exact :
    (∀ b0 b1 b2 b3 b4 : Nat, b0 < 256 → b1 < 256 → b2 < 256 → b3 < 256 →
      b4 < 256 → ∀ i : Nat, i < 4 →
      (unpack_sbggr10_scalar b0 b1 b2 b3 b4).getD i 0 =
        (b0 + 2 ^ 8 * b1 + 2 ^ 16 * b2 + 2 ^ 24 * b3 + 2 ^ 32 * b4)
          / 2 ^ (10 * i) % 2 ^ 10) ∧
    unpack_sbggr10_scalar 0xFF 0x03 0x00 0x00 0x00 = [1023, 0, 0, 0] := by
  constructor
  · intro b0 b1 b2 b3 b4 h0 h1 h2 h3 h4 i hi
    have hc := combined_eq b0 b1 b2 b3 b4 h0 h1 h2 h3
    have hmask : ∀ x : Nat, x &&& 0x3FF = x % 2 ^ 10 := fun x =>
      Nat.and_pow_two_sub_one_eq_mod x 10
    have hshift : ∀ (x k : Nat), x >>> k = x / 2 ^ k := fun x k =>
      Nat.shiftRight_eq_div_pow x k
    interval_cases i <;>
      simp only [unpack_sbggr10_scalar, List.getD, List.getElem?_cons_zero,
        List.getD_cons_succ, List.getD_cons_zero, hc, hmask, hshift] <;>
      norm_num
  · decide

/-- C3 witness: instantiating the bit-exactness at the boundary group and
sample 0 yields 1023. -/
theorem unpack_scalar_bit_exact_witness :
    (unpack_sbggr10_scalar 0xFF 0x03 0x00 0x00 0x00).getD 0 0 =
      (0xFF + 2 ^ 8 * 0x03 + 2 ^ 16 * 0 + 2 ^ 24 * 0 + 2 ^ 32 * 0)
        / 2 ^ (10 * 0) % 2 ^ 10 :=
  unpack_scalar_bit_exact.1 0xFF 0x03 0x00 0x00 0x00 (by decide) (by decide)
    (by decide) (by decide) (by decide) 0 (by decide)

/-! ### Claim theorems: C4, C5, C9 -/

/-- C4: on every valid input (non-null buffers, `raw_size` a nonzero multiple
of 5), `unpack_sbggr10_image` returns 0; the written output region has length
exactly `width * height`, every decoded sample is in `[0, 1023]`, and every
output position at or beyond the number of available input samples
(`raw_size / 5 * 4`) is zero — short input degrades to a zero-padded frame
instead of failing. -/
theorem unpack_image_valid_input (raw buf : List Nat) (width height : Nat)
    (hmod : raw.length % 5 = 0) (hnz : raw.length ≠ 0) :
    ∃ content : List Nat,
      unpack_sbggr10_image (some raw) (some buf) width height =
        (0, some (content ++ buf.drop (width * height))) ∧
      content.length = width * height ∧
      (∀ v ∈ content, v < 1024) ∧
      (∀ i, raw.length / 5 * 4 ≤ i → content.getD i 0 = 0) := by
  have hmod' : ¬raw.length % 5 ≠ 0 := by omega
  refine ⟨unpackLoop raw (min (raw.length / 5 * 4) (width * height)) ++
    List.replicate (width * height -
      (unpackLoop raw (min (raw.length / 5 * 4) (width * height))).length) 0,
    ?_, ?_, ?_, ?_⟩
  · simp only [unpack_sbggr10_image, if_neg hnz, if_neg hmod']
  · rw [List.length_append, List.length_replicate, unpackLoop_length]
    omega
  · intro v hv
    rcases List.mem_append.1 hv with hv | hv
    · exact unpackLoop_mem _ _ v hv
    · rw [List.eq_of_mem_replicate hv]; omega
  · intro i hi
    have hlen : (unpackLoop raw (min (raw.length / 5 * 4) (width * height))).length ≤
        raw.length / 5 * 4 := by
      rw [unpackLoop_length]; omega
    rw [List.getD_append_right _ _ _ _ (by omega)]
    rcases Nat.lt_or_ge (i - (unpackLoop raw
        (min (raw.length / 5 * 4) (width * height))).length)
      (width * height - (unpackLoop raw
        (min (raw.length / 5 * 4) (width * height))).length) with hlt | hge
    · rw [List.getD_eq_getElem _ _ (by simpa using hlt)]
      simp
    · exact List.getD_eq_default _ _ (by simpa using hge)

/-- C4 witness: one 5-byte group unpacked into a 2×2 frame succeeds with the
samples `[1023, 0, 0, 0]`. -/
theorem unpack_image_valid_input_witness :
    ∃ content : List Nat,
      unpack_sbggr10_image (some [0xFF, 0x03, 0x00, 0x00, 0x00]) (some []) 2 2 =
        (0, some (content ++ List.drop (2 * 2) [])) ∧
      content.length = 2 * 2 ∧
      (∀ v ∈ content, v < 1024) ∧
      (∀ i, [0xFF, 0x03, 0x00, 0x00, 0x00].length / 5 * 4 ≤ i →
        content.getD i 0 = 0) :=
  unpack_image_valid_input [0xFF, 0x03, 0x00, 0x00, 0x00] [] 2 2
    (by decide) (by decide)

/-- C5: whenever the input length is not a multiple of 5,
`unpack_sbggr10_image` returns -1 and the output pixel buffer is completely
unchanged. -/
theorem unpack_image_invalid_raw_size (raw buf : List Nat) (width height : Nat)
    (hmod : raw.length % 5 ≠ 0) :
    unpack_sbggr10_image (some raw) (some buf) width height = (-1, some buf) := by
  have hnz : raw.length ≠ 0 := by omega
  simp only [unpack_sbggr10_image, if_neg hnz, if_pos hmod]

/-- C5 witness: a 3-byte input is rejected with the output buffer intact. -/
theorem unpack_image_invalid_raw_size_witness :
    unpack_sbggr10_image (some [1, 2, 3]) (some [7, 7]) 4 4 = (-1, some [7, 7]) :=
  unpack_image_invalid_raw_size [1, 2, 3] [7, 7] 4 4 (by decide)

/-- C9: `unpack_sbggr10_image` also fails, leaving the output buffer
untouched, when `raw_data` is null, when `output_pixels` is null, and when
`raw_size` is 0 (even though 0 is a multiple of 5). -/
theorem unpack_image_null_or_empty (width height : Nat) :
    (∀ out : Option (List Nat),
      unpack_sbggr10_image none out width height = (-1, out)) ∧
    (∀ raw : List Nat,
      unpack_sbggr10_image (some raw) none width height = (-1, none)) ∧
    (∀ raw buf : List Nat, raw.length = 0 →
      unpack_sbggr10_image (some raw) (some buf) width height = (-1, some buf)) := by
  refine ⟨fun out => rfl, fun raw => rfl, fun raw buf hz => ?_⟩
  simp only [unpack_sbggr10_image, if_pos hz]

/-- C9 witness: the empty input is rejected with the output buffer intact. -/
theorem unpack_image_null_or_empty_witness :
    unpack_sbggr10_image (some []) (some [9]) 4 4 = (-1, some [9]) :=
  (unpack_image_null_or_empty 4 4).2.2 [] [9] (by decide)

/-! ### Helper lemmas for the compositor -/

lemma getD_set (l : List Nat) (i j a : Nat) :
    (l.set i a).getD j 0 = if i = j ∧ i < l.length then a else l.getD j 0 := by
  simp only [List.getD_eq_getElem?_getD, List.getElem?_set]
  by_cases h1 : i = j
  · subst h1
    by_cases h2 : i < l.length
    · simp [h2]
    · simp [h2, List.getElem?_eq_none (by omega : l.length ≤ i)]
  · simp [h1]

lemma copyCols_length (s : List Nat) (sw y x_off dst_y W : Nat) :
    ∀ (n x0 : Nat) (buf : List Nat),
      (copyCols s sw y x_off dst_y W x0 n buf).length = buf.length := by
  intro n
  induction n with
  | zero => intro x0 buf; rfl
  | succ n ih =>
    intro x0 buf
    rw [copyCols]
    by_cases h : W ≤ x0 + x_off
    · rw [if_pos h]
    · rw [if_neg h, ih, List.length_set]

lemma copyRows_length (s : List Nat) (sw x_off y_off W H cw : Nat) :
    ∀ (n y0 : Nat) (buf : List Nat),
      (copyRows s sw x_off y_off W H cw y0 n buf).length = buf.length := by
  intro n
  induction n with
  | zero => intro y0 buf; rfl
  | succ n ih =>
    intro y0 buf
    rw [copyRows]
    by_cases h : H ≤ y0 + y_off
    · rw [if_pos h]
    · rw [if_neg h, ih, copyCols_length]

/-- Pointwise effect of the inner copy loop: positions in the written span of
row `dst_y` take source values, all other positions keep the buffer's value. -/
lemma copyCols_getD (s : List Nat) (sw y x_off dst_y W : Nat) :
    ∀ (n x0 : Nat) (buf : List Nat) (j : Nat),
      x0 + n + x_off ≤ W → dst_y * W + W ≤ buf.length →
      (copyCols s sw y x_off dst_y W x0 n buf).getD j 0 =
        if dst_y * W + (x0 + x_off) ≤ j ∧ j < dst_y * W + (x0 + n + x_off) then
          s.getD (y * sw + (j - (dst_y * W + x_off))) 0
        else buf.getD j 0 := by
  intro n
  induction n with
  | zero =>
    intro x0 buf j _ _
    rw [copyCols, if_neg (by omega : ¬(dst_y * W + (x0 + x_off) ≤ j ∧
      j < dst_y * W + (x0 + 0 + x_off)))]
  | succ n ih =>
    intro x0 buf j hn hbuf
    rw [copyCols, if_neg (by omega : ¬W ≤ x0 + x_off)]
    rw [ih (x0 + 1) _ j (by omega) (by rw [List.length_set]; exact hbuf)]
    rw [getD_set]
    by_cases hin : dst_y * W + (x0 + 1 + x_off) ≤ j ∧
        j < dst_y * W + (x0 + 1 + n + x_off)
    · rw [if_pos hin, if_pos (by omega)]
    · rw [if_neg hin]
      by_cases heq : dst_y * W + (x0 + x_off) = j ∧
          dst_y * W + (x0 + x_off) < buf.length
      · rw [if_pos heq, if_pos (by omega)]
        have harg : y * sw + (j - (dst_y * W + x_off)) = y * sw + x0 := by omega
        rw [harg]
      · rw [if_neg heq, if_neg (by
          intro hcon
          apply heq
          constructor
          · omega
          · omega)]

/-- Decomposition of a row-major canvas index: an index inside the written
span of row `dsty` determines the row and the column range. -/
lemma row_decomp (W i jc dsty a cw : Nat) (hjc : jc < W) (hcw : a + cw ≤ W) :
    (dsty * W + a ≤ i * W + jc ∧ i * W + jc < dsty * W + (cw + a)) ↔
      (i = dsty ∧ a ≤ jc ∧ jc < a + cw) := by
  constructor
  · rintro ⟨h1, h2⟩
    rcases Nat.lt_trichotomy i dsty with h | h | h
    · exfalso
      have hle : (i + 1) * W ≤ dsty * W := Nat.mul_le_mul_right W h
      have : i * W + jc < dsty * W := by
        calc i * W + jc < i * W + W := by omega
          _ = (i + 1) * W := by ring
          _ ≤ dsty * W := hle
      omega
    · subst h
      exact ⟨rfl, by omega, by omega⟩
    · exfalso
      have hle : (dsty + 1) * W ≤ i * W := Nat.mul_le_mul_right W h
      have : dsty * W + W ≤ i * W := by
        calc dsty * W + W = (dsty + 1) * W := by ring
          _ ≤ i * W := hle
      omega
  · rintro ⟨rfl, ha, hb⟩
    omega

/-- Pointwise effect of the row loop: the copied rectangle takes source
values, everything else keeps the buffer's value. -/
lemma copyRows_getD (s : List Nat) (sw x_off y_off W H cw : Nat) :
    ∀ (n y0 : Nat) (buf : List Nat) (i jc : Nat),
      y0 + n + y_off ≤ H → x_off + cw ≤ W → W * H ≤ buf.length → jc < W →
      (copyRows s sw x_off y_off W H cw y0 n buf).getD (i * W + jc) 0 =
        if y0 + y_off ≤ i ∧ i < y0 + n + y_off ∧ x_off ≤ jc ∧ jc < x_off + cw then
          s.getD ((i - y_off) * sw + (jc - x_off)) 0
        else buf.getD (i * W + jc) 0 := by
  intro n
  induction n with
  | zero =>
    intro y0 buf i jc _ _ _ _
    rw [copyRows, if_neg (by omega : ¬(y0 + y_off ≤ i ∧ i < y0 + 0 + y_off ∧
      x_off ≤ jc ∧ jc < x_off + cw))]
  | succ n ih =>
    intro y0 buf i jc hn hx hbuf hjc
    rw [copyRows, if_neg (by omega : ¬H ≤ y0 + y_off)]
    rw [ih (y0 + 1) _ i jc (by omega) hx
      (by rw [copyCols_length]; exact hbuf) hjc]
    have hrowbound : (y0 + y_off) * W + W ≤ buf.length := by
      have h1 : y0 + y_off + 1 ≤ H := by omega
      have h2 : (y0 + y_off + 1) * W ≤ H * W := Nat.mul_le_mul_right W h1
      have h3 : (y0 + y_off) * W + W = (y0 + y_off + 1) * W := by ring
      have h4 : H * W = W * H := by ring
      omega
    rw [copyCols_getD s sw y0 x_off (y0 + y_off) W cw 0 buf (i * W + jc)
      (by omega) hrowbound]
    have hdecomp := row_decomp W i jc (y0 + y_off) x_off cw hjc hx
    by_cases hin : y0 + 1 + y_off ≤ i ∧ i < y0 + 1 + n + y_off ∧
        x_off ≤ jc ∧ jc < x_off + cw
    · rw [if_pos hin, if_pos (by omega)]
    · rw [if_neg hin]
      by_cases hrow : (y0 + y_off) * W + (0 + x_off) ≤ i * W + jc ∧
          i * W + jc < (y0 + y_off) * W + (0 + cw + x_off)
      · have hrow2 : (y0 + y_off) * W + x_off ≤ i * W + jc ∧
            i * W + jc < (y0 + y_off) * W + (cw + x_off) := by omega
        obtain ⟨hi, hjc1, hjc2⟩ := hdecomp.mp hrow2
        rw [if_pos hrow, if_pos (by omega)]
        have hprod : i * W = (y0 + y_off) * W := by rw [hi]
        have ha1 : i - y_off = y0 := by omega
        rw [ha1]
        congr 1
        omega
      · rw [if_neg hrow]
        rw [if_neg (by
          intro hcon
          apply hrow
          have hieq : i = y0 + y_off := by omega
          have hprod : i * W = (y0 + y_off) * W := by rw [hieq]
          constructor
          · omega
          · omega)]

/-- C's `/` on `int` is truncating division; reduce `Int.tdiv` by 2 to
Euclidean division for arithmetic reasoning. -/
lemma tdiv_two_cases (a : Int) :
    a.tdiv 2 = if 0 ≤ a then a / 2 else -(-a / 2) := by
  by_cases h : 0 ≤ a
  · rw [if_pos h, Int.tdiv_eq_ediv h (by omega)]
  · rw [if_neg h]
    have h2 : a.tdiv 2 = -((-a).tdiv 2) := by
      rw [Int.neg_tdiv, neg_neg]
    rw [h2, Int.tdiv_eq_ediv (by omega) (by omega)]

lemma replicate_getD (n j : Nat) : (List.replicate n (0 : Nat)).getD j 0 = 0 := by
  rw [List.getD_eq_getElem?_getD, List.getElem?_replicate]
  by_cases h : j < n
  · rw [if_pos h]; rfl
  · rw [if_neg h]; rfl

/-- Full behavior of `landscape_image_fit` on any positive source size:
success, canvas-sized output, in-bounds copy region, and the pointwise
content — clamped centering offsets, cropped copy size, black elsewhere. -/
lemma landscape_fit_spec (s d : List Nat) (src_width src_height : Int)
    (W H : Nat) (hw : 0 < src_width) (hh : 0 < src_height) :
    ∃ out : List Nat,
      landscape_image_fit (some s) src_width src_height (some d) W H =
        (0, some out) ∧
      out.length = W * H ∧
      (W - src_width.toNat) / 2 + min src_width.toNat W ≤ W ∧
      (H - src_height.toNat) / 2 + min src_height.toNat H ≤ H ∧
      (∀ i jc : Nat, i < H → jc < W →
        out.getD (i * W + jc) 0 =
          if (H - src_height.toNat) / 2 ≤ i ∧
             i < (H - src_height.toNat) / 2 + min src_height.toNat H ∧
             (W - src_width.toNat) / 2 ≤ jc ∧
             jc < (W - src_width.toNat) / 2 + min src_width.toNat W then
            s.getD ((i - (H - src_height.toNat) / 2) * src_width.toNat +
              (jc - (W - src_width.toNat) / 2)) 0
          else 0) := by
  have hxo : (if Int.tdiv ((W : Int) - src_width) 2 < 0 then 0
      else Int.tdiv ((W : Int) - src_width) 2).toNat =
      (W - src_width.toNat) / 2 := by
    rw [tdiv_two_cases]
    by_cases hs : 0 ≤ (W : Int) - src_width
    · rw [if_pos hs]
      by_cases hneg : ((W : Int) - src_width) / 2 < 0
      · omega
      · rw [if_neg hneg]
        omega
    · rw [if_neg hs]
      by_cases hneg : -(-((W : Int) - src_width) / 2) < 0
      · rw [if_pos hneg]
        omega
      · rw [if_neg hneg]
        omega
  have hyo : (if Int.tdiv ((H : Int) - src_height) 2 < 0 then 0
      else Int.tdiv ((H : Int) - src_height) 2).toNat =
      (H - src_height.toNat) / 2 := by
    rw [tdiv_two_cases]
    by_cases hs : 0 ≤ (H : Int) - src_height
    · rw [if_pos hs]
      by_cases hneg : ((H : Int) - src_height) / 2 < 0
      · omega
      · rw [if_neg hneg]
        omega
    · rw [if_neg hs]
      by_cases hneg : -(-((H : Int) - src_height) / 2) < 0
      · rw [if_pos hneg]
        omega
      · rw [if_neg hneg]
        omega
  have hcw : (if (W : Int) < src_width then W else src_width.toNat) =
      min src_width.toNat W := by
    by_cases hc : (W : Int) < src_width
    · rw [if_pos hc]
      omega
    · rw [if_neg hc]
      omega
  have hch : (if (H : Int) < src_height then H else src_height.toNat) =
      min src_height.toNat H := by
    by_cases hc : (H : Int) < src_height
    · rw [if_pos hc]
      omega
    · rw [if_neg hc]
      omega
  refine ⟨copyRows s src_width.toNat ((W - src_width.toNat) / 2)
      ((H - src_height.toNat) / 2) W H (min src_width.toNat W) 0
      (min src_height.toNat H) (List.replicate (W * H) 0), ?_, ?_, ?_, ?_, ?_⟩
  · simp only [landscape_image_fit]
    rw [if_neg (by omega : ¬(src_width ≤ 0 ∨ src_height ≤ 0))]
    rw [hxo, hyo, hcw, hch]
  · rw [copyRows_length, List.length_replicate]
  · omega
  · omega
  · intro i jc hi hjc
    rw [copyRows_getD s src_width.toNat ((W - src_width.toNat) / 2)
      ((H - src_height.toNat) / 2) W H (min src_width.toNat W)
      (min src_height.toNat H) 0 (List.replicate (W * H) 0) i jc
      (by omega) (by omega) (by rw [List.length_replicate]) hjc]
    rw [replicate_getD]
    refine if_congr (by omega) rfl rfl

/-! ### Claim theorems: C7, C10 -/

/-- C7: for a positive source no larger than the canvas,
`landscape_image_fit` succeeds and centers the source at
`x_offset = (W - src_w) / 2`, `y_offset = (H - src_h) / 2`, with every canvas
pixel outside the copied region black (0); and it fails with -1, leaving the
destination untouched, whenever `src_w ≤ 0`, `src_h ≤ 0`, or either buffer
pointer is NULL. -/
theorem landscape_fit_centered (s d : List Nat) (src_width src_height : Int)
    (W H : Nat) (hw0 : 0 < src_width) (hwW : src_width ≤ (W : Int))
    (hh0 : 0 < src_height) (hhH : src_height ≤ (H : Int)) :
    (∃ out : List Nat,
      landscape_image_fit (some s) src_width src_height (some d) W H =
        (0, some out) ∧
      out.length = W * H ∧
      (∀ i jc : Nat, i < H → jc < W →
        out.getD (i * W + jc) 0 =
          if (H - src_height.toNat) / 2 ≤ i ∧
             i < (H - src_height.toNat) / 2 + src_height.toNat ∧
             (W - src_width.toNat) / 2 ≤ jc ∧
             jc < (W - src_width.toNat) / 2 + src_width.toNat then
            s.getD ((i - (H - src_height.toNat) / 2) * src_width.toNat +
              (jc - (W - src_width.toNat) / 2)) 0
          else 0)) ∧
    (∀ (sb db : Option (List Nat)) (sw sh : Int),
      sb = none ∨ db = none ∨ sw ≤ 0 ∨ sh ≤ 0 →
      landscape_image_fit sb sw sh db W H = (-1, db)) := by
  constructor
  · obtain ⟨out, h1, h2, _, _, h5⟩ :=
      landscape_fit_spec s d src_width src_height W H hw0 hh0
    refine ⟨out, h1, h2, ?_⟩
    intro i jc hi hjc
    rw [h5 i jc hi hjc]
    exact if_congr (by omega) rfl rfl
  · rintro sb db sw sh (rfl | rfl | hle | hle)
    · cases db <;> rfl
    · cases sb <;> rfl
    · cases sb with
      | none => cases db <;> rfl
      | some s' => cases db with
        | none => rfl
        | some d' =>
          simp only [landscape_image_fit]
          rw [if_pos (Or.inl hle)]
    · cases sb with
      | none => cases db <;> rfl
      | some s' => cases db with
        | none => rfl
        | some d' =>
          simp only [landscape_image_fit]
          rw [if_pos (Or.inr hle)]

/-- C7 witness: a 2×2 source into an 8×8 canvas is placed at offset (3, 3)
with all other pixels zero, and degenerate inputs are rejected. -/
theorem landscape_fit_centered_witness :
    (∃ out : List Nat,
      landscape_image_fit (some [1, 2, 3, 4]) 2 2 (some []) 8 8 =
        (0, some out) ∧
      out.length = 8 * 8 ∧
      (∀ i jc : Nat, i < 8 → jc < 8 →
        out.getD (i * 8 + jc) 0 =
          if (8 - (2 : Int).toNat) / 2 ≤ i ∧
             i < (8 - (2 : Int).toNat) / 2 + (2 : Int).toNat ∧
             (8 - (2 : Int).toNat) / 2 ≤ jc ∧
             jc < (8 - (2 : Int).toNat) / 2 + (2 : Int).toNat then
            [1, 2, 3, 4].getD ((i - (8 - (2 : Int).toNat) / 2) * (2 : Int).toNat +
              (jc - (8 - (2 : Int).toNat) / 2)) 0
          else 0)) ∧
    (∀ (sb db : Option (List Nat)) (sw sh : Int),
      sb = none ∨ db = none ∨ sw ≤ 0 ∨ sh ≤ 0 →
      landscape_image_fit sb sw sh db 8 8 = (-1, db)) :=
  landscape_fit_centered [1, 2, 3, 4] [] 2 2 8 8 (by norm_num) (by norm_num)
    (by norm_num) (by norm_num)

/-- C10: for any positive source size — in particular one exceeding the
canvas in either dimension — `landscape_image_fit` still succeeds: the offset
of an oversize axis clamps to 0, only the top-left
`min(src_w, W) × min(src_h, H)` crop of the source is copied, and the whole
copy region lies inside the canvas bounds (the output stays a `W * H`
buffer). -/
theorem landscape_fit_oversize (s d : List Nat) (src_width src_height : Int)
    (W H : Nat) (hw : 0 < src_width) (hh : 0 < src_height) :
    ∃ out : List Nat,
      landscape_image_fit (some s) src_width src_height (some d) W H =
        (0, some out) ∧
      out.length = W * H ∧
      ((W : Int) < src_width → (W - src_width.toNat) / 2 = 0) ∧
      ((H : Int) < src_height → (H - src_height.toNat) / 2 = 0) ∧
      (W - src_width.toNat) / 2 + min src_width.toNat W ≤ W ∧
      (H - src_height.toNat) / 2 + min src_height.toNat H ≤ H ∧
      (∀ i jc : Nat, i < H → jc < W →
        out.getD (i * W + jc) 0 =
          if (H - src_height.toNat) / 2 ≤ i ∧
             i < (H - src_height.toNat) / 2 + min src_height.toNat H ∧
             (W - src_width.toNat) / 2 ≤ jc ∧
             jc < (W - src_width.toNat) / 2 + min src_width.toNat W then
            s.getD ((i - (H - src_height.toNat) / 2) * src_width.toNat +
              (jc - (W - src_width.toNat) / 2)) 0
          else 0) := by
  obtain ⟨out, h1, h2, h3, h4, h5⟩ :=
    landscape_fit_spec s d src_width src_height W H hw hh
  exact ⟨out, h1, h2, by omega, by omega, h3, h4, h5⟩

/-- C10 witness: a 3×1 source into a 2×1 canvas succeeds, the width offset
clamps to 0, and only the 2×1 top-left crop is copied. -/
theorem landscape_fit_oversize_witness :
    ∃ out : List Nat,
      landscape_image_fit (some [5, 6, 7]) 3 1 (some []) 2 1 =
        (0, some out) ∧
      out.length = 2 * 1 ∧
      ((2 : Int) < 3 → (2 - (3 : Int).toNat) / 2 = 0) ∧
      ((1 : Int) < 1 → (1 - (1 : Int).toNat) / 2 = 0) ∧
      (2 - (3 : Int).toNat) / 2 + min (3 : Int).toNat 2 ≤ 2 ∧
      (1 - (1 : Int).toNat) / 2 + min (1 : Int).toNat 1 ≤ 1 ∧
      (∀ i jc : Nat, i < 1 → jc < 2 →
        out.getD (i * 2 + jc) 0 =
          if (1 - (1 : Int).toNat) / 2 ≤ i ∧
             i < (1 - (1 : Int).toNat) / 2 + min (1 : Int).toNat 1 ∧
             (2 - (3 : Int).toNat) / 2 ≤ jc ∧
             jc < (2 - (3 : Int).toNat) / 2 + min (3 : Int).toNat 2 then
            [5, 6, 7].getD ((i - (1 - (1 : Int).toNat) / 2) * (3 : Int).toNat +
              (jc - (2 - (3 : Int).toNat) / 2)) 0
          else 0) :=
  landscape_fit_oversize [5, 6, 7] [] 3 1 2 1 (by norm_num) (by norm_num)

/-! ### Scaler lemmas and claim theorems: C6 -/

lemma flatMap_range_map_length (f : Nat → Nat → Nat) (m n : Nat) :
    ((List.range m).flatMap fun y => (List.range n).map (f y)).length = m * n := by
  induction m with
  | zero => simp
  | succ m ih =>
    rw [List.range_succ, List.flatMap_append, List.length_append, ih]
    simp [List.flatMap]
    ring

lemma flatMap_range_map_getD (f : Nat → Nat → Nat) (m n y x : Nat)
    (hy : y < m) (hx : x < n) :
    ((List.range m).flatMap fun i => (List.range n).map (f i)).getD (y * n + x) 0 =
      f y x := by
  induction m with
  | zero => omega
  | succ m ih =>
    rw [List.range_succ, List.flatMap_append]
    by_cases hy2 : y < m
    · rw [List.getD_append _ _ _ _ (by
        rw [flatMap_range_map_length]
        have h1 : y + 1 ≤ m := hy2
        have h2 : (y + 1) * n ≤ m * n := Nat.mul_le_mul_right n h1
        have h3 : (y + 1) * n = y * n + n := by ring
        omega)]
      exact ih hy2
    · have hym : y = m := by omega
      subst hym
      rw [List.getD_append_right _ _ _ _ (by
        rw [flatMap_range_map_length]
        omega)]
      rw [flatMap_range_map_length]
      have hidx : y * n + x - y * n = x := by omega
      rw [hidx]
      simp only [List.flatMap, List.map_cons, List.map_nil, List.flatten]
      rw [List.append_nil, List.getD_eq_getElem?_getD, List.getElem?_map,
        List.getElem?_range hx]
      rfl

lemma bitLenAux_spec : ∀ (fuel n : Nat), n ≤ fuel → 1 ≤ n →
    1 ≤ bitLenAux fuel n ∧ 2 ^ (bitLenAux fuel n - 1) ≤ n ∧
      n < 2 ^ bitLenAux fuel n := by
  intro fuel
  induction fuel with
  | zero => intro n h1 h2; omega
  | succ fuel ih =>
    intro n hle h1
    rw [bitLenAux, if_neg (by omega : ¬n = 0)]
    by_cases h2 : n = 1
    · subst h2
      have hz : bitLenAux fuel (1 / 2) = 0 := by
        norm_num
        cases fuel <;> rfl
      rw [hz]
      norm_num
    · have hrec := ih (n / 2) (by omega) (by omega)
      set B := bitLenAux fuel (n / 2) with hB
      obtain ⟨hb1, hb2, hb3⟩ := hrec
      refine ⟨by omega, ?_, ?_⟩
      · simp only [Nat.add_sub_cancel]
        have hpow : 2 ^ B = 2 * 2 ^ (B - 1) := by
          rw [← pow_succ']
          congr 1
          omega
        omega
      · have hpow : 2 ^ (B + 1) = 2 * 2 ^ B := by
          rw [pow_succ]
          ring
        omega

lemma bitLen_spec (n : Nat) (h : 1 ≤ n) :
    1 ≤ bitLen n ∧ 2 ^ (bitLen n - 1) ≤ n ∧ n < 2 ^ bitLen n :=
  bitLenAux_spec n n le_rfl h

lemma bitLen_eq (n k : Nat) (h1 : 2 ^ k ≤ n) (h2 : n < 2 ^ (k + 1)) :
    bitLen n = k + 1 := by
  have hn : 1 ≤ n := le_trans (Nat.two_pow_pos k) h1
  obtain ⟨hb1, hb2, hb3⟩ := bitLen_spec n hn
  rcases Nat.lt_trichotomy (bitLen n) (k + 1) with hlt | heq | hgt
  · exfalso
    have : (2 : Nat) ^ bitLen n ≤ 2 ^ k := Nat.pow_le_pow_right (by norm_num) (by omega)
    omega
  · exact heq
  · exfalso
    have : (2 : Nat) ^ (k + 1) ≤ 2 ^ (bitLen n - 1) :=
      Nat.pow_le_pow_right (by norm_num) (by omega)
    omega



lemma divRound_self (w : Nat) (hw : 1 ≤ w) : divRound w w 0 = ⟨2 ^ 23, -23⟩ := by
  have h0 : 0 < w := hw
  simp only [divRound]
  have hbl : 1 ≤ bitLen w := (bitLen_spec w hw).1
  generalize ht : bitLen w + 25 = t
  have ht26 : 26 ≤ t := by omega
  have hA : w * 2 ^ t / w = 2 ^ t := Nat.mul_div_cancel_left _ h0
  have hr : w * 2 ^ t % w = 0 := Nat.mul_mod_right _ _
  rw [hA, hr]
  have hq : bitLen (2 ^ t) = t + 1 := bitLen_eq _ _ le_rfl
    ((Nat.pow_lt_pow_iff_right (by norm_num)).mpr (by omega))
  rw [hq]
  simp only [Nat.add_sub_cancel]
  have hq2 : 2 ^ t / 2 ^ (t - 23) = 2 ^ 23 := by
    rw [Nat.pow_div (by omega) (by norm_num)]
    congr 1
    omega
  have hr2 : 2 ^ t % 2 ^ (t - 23) = 0 :=
    Nat.mod_eq_zero_of_dvd (pow_dvd_pow 2 (by omega))
  rw [hq2, hr2]
  rw [if_pos (Nat.two_pow_pos (t - 23 - 1))]
  congr 1
  have hcast : ((t - 23 : Nat) : Int) = (t : Int) - 23 := by
    omega
  rw [hcast]
  ring

lemma intToF32_small (x : Nat) (hx : x < 2 ^ 24) : intToF32 x = ⟨x, 0⟩ := by
  simp only [intToF32, rnd32N, if_pos hx]

lemma intToF32_m_pos (w : Nat) (hw : 1 ≤ w) (hw24 : w ≤ 2 ^ 24) :
    1 ≤ (intToF32 w).m := by
  by_cases hlt : w < 2 ^ 24
  · rw [intToF32_small w hlt]
    exact hw
  · have hw' : w = 2 ^ 24 := by omega
    subst hw'
    decide

lemma ratio_self (w : Nat) (hw : 1 ≤ w) (hw24 : w ≤ 2 ^ 24) :
    f32div (intToF32 w) (intToF32 w) = ⟨2 ^ 23, -23⟩ := by
  have hm := intToF32_m_pos w hw hw24
  simp only [f32div, if_neg (by omega : ¬(intToF32 w).m = 0)]
  rw [sub_self]
  exact divRound_self _ hm

lemma trunc_x_times_one (x : Nat) (hx : x < 2 ^ 24) :
    truncF32 (f32mul (intToF32 x) ⟨2 ^ 23, -23⟩) = x := by
  rw [intToF32_small x hx]
  show truncF32 (rnd32N (x * 2 ^ 23) (0 + -23)) = x
  have he : (0 + -23 : Int) = -23 := by norm_num
  rw [he]
  by_cases h1 : x * 2 ^ 23 < 2 ^ 24
  · have hx1 : x ≤ 1 := by
      by_contra hc
      push_neg at hc
      have h2 : 2 * 2 ^ 23 ≤ x * 2 ^ 23 := Nat.mul_le_mul_right _ (by omega)
      norm_num at h2 h1
      omega
    interval_cases x
    · decide
    · decide
  · have hx2 : 2 ≤ x := by
      by_contra hc
      push_neg at hc
      interval_cases x <;> norm_num at h1
    obtain ⟨hb1, hb2, hb3⟩ := bitLen_spec x (by omega)
    have hblge : 2 ≤ bitLen x := by
      by_contra hc
      push_neg at hc
      have h2 : (2 : Nat) ^ bitLen x ≤ 2 ^ 1 :=
        Nat.pow_le_pow_right (by norm_num) (by omega)
      norm_num at h2
      omega
    have hblle : bitLen x ≤ 24 := by
      by_contra hc
      push_neg at hc
      have h2 : (2 : Nat) ^ 24 ≤ 2 ^ (bitLen x - 1) :=
        Nat.pow_le_pow_right (by norm_num) (by omega)
      omega
    have hbm : bitLen (x * 2 ^ 23) = bitLen x - 1 + 23 + 1 := by
      apply bitLen_eq
      · rw [pow_add]
        exact Nat.mul_le_mul_right _ hb2
      · have hlt : x < 2 ^ (bitLen x - 1 + 1) := by
          have heq : bitLen x - 1 + 1 = bitLen x := by omega
          rw [heq]
          exact hb3
        calc x * 2 ^ 23 < 2 ^ (bitLen x - 1 + 1) * 2 ^ 23 :=
              (Nat.mul_lt_mul_right (Nat.two_pow_pos _)).mpr hlt
          _ = 2 ^ (bitLen x - 1 + 23 + 1) := by
              rw [← pow_add]
      -- note bitLen_eq gives = (bitLen x - 1 + 23) + 1
    simp only [rnd32N, if_neg h1, truncF32]
    rw [hbm]
    have hs : bitLen x - 1 + 23 + 1 - 1 - 23 = bitLen x - 1 := by omega
    rw [hs]
    have h23 : bitLen x - 1 ≤ 23 := by omega
    have hexp : 23 - (bitLen x - 1) + (bitLen x - 1) = 23 := by omega
    have hsplit : x * 2 ^ 23 = x * 2 ^ (23 - (bitLen x - 1)) * 2 ^ (bitLen x - 1) := by
      rw [mul_assoc, ← pow_add, hexp]
    have hq : x * 2 ^ 23 / 2 ^ (bitLen x - 1) = x * 2 ^ (23 - (bitLen x - 1)) := by
      rw [hsplit]
      exact Nat.mul_div_cancel _ (Nat.two_pow_pos _)
    have hrr : x * 2 ^ 23 % 2 ^ (bitLen x - 1) = 0 := by
      apply Nat.mod_eq_zero_of_dvd
      rw [hsplit]
      exact dvd_mul_left _ _
    rw [hq, hrr]
    rw [if_pos (Nat.two_pow_pos (bitLen x - 1 - 1))]
    by_cases hc : bitLen x - 1 = 23
    · rw [hc]
      norm_num
    · rw [if_neg (by omega : ¬(0 : Int) ≤ -23 + ↑(bitLen x - 1))]
      have htn : ((-(-23 + (↑(bitLen x - 1) : Int))).toNat) = 23 - (bitLen x - 1) := by
        omega
      rw [htn]
      exact Nat.mul_div_cancel _ (Nat.two_pow_pos _)

/-- C6 (amended): each output pixel at `(x, y)` of `scale_pixels` equals the
source pixel at the coordinates the code's single-precision arithmetic
computes — `trunc(fl32(x) * fl32(fl32(src_dim) / fl32(dst_dim)))`, clamped to
`src_dim - 1` — and the output is in row-major order of length
`dst_h * dst_w`; when the source dimensions equal the target dimensions (and
are at most 2^24, so they are exactly representable in binary32), the output
is pixel-for-pixel equal to the input. The float computation does not always
agree with the exact integer formula `floor(x * src_dim / dst_dim)`. -/
theorem scale_pixels_float_semantics (src : List Nat)
    (src_width src_height dst_width dst_height : Nat) :
    (scale_pixels src src_width src_height dst_width dst_height).length =
      dst_height * dst_width ∧
    (∀ y x : Nat, y < dst_height → x < dst_width →
      (scale_pixels src src_width src_height dst_width dst_height).getD
          (y * dst_width + x) 0 =
        (let x_ratio := f32div (intToF32 src_width) (intToF32 dst_width)
         let y_ratio := f32div (intToF32 src_height) (intToF32 dst_height)
         let src_x0 := truncF32 (f32mul (intToF32 x) x_ratio)
         let src_y0 := truncF32 (f32mul (intToF32 y) y_ratio)
         let src_x := if src_width ≤ src_x0 then src_width - 1 else src_x0
         let src_y := if src_height ≤ src_y0 then src_height - 1 else src_y0
         src.getD (src_y * src_width + src_x) 0)) ∧
    (src_width = dst_width → src_height = dst_height → 1 ≤ dst_width →
      1 ≤ dst_height → dst_width ≤ 2 ^ 24 → dst_height ≤ 2 ^ 24 →
      src.length = dst_height * dst_width →
      scale_pixels src src_width src_height dst_width dst_height = src) := by
  refine ⟨?_, ?_, ?_⟩
  · simp only [scale_pixels]
    exact flatMap_range_map_length _ _ _
  · intro y x hy hx
    simp only [scale_pixels]
    exact flatMap_range_map_getD _ _ _ _ _ hy hx
  · intro hsw hsh h1w h1h h24w h24h hlen
    subst hsw hsh
    have hratio_w := ratio_self src_width h1w h24w
    have hratio_h := ratio_self src_height h1h h24h
    apply List.ext_getElem
    · simp only [scale_pixels]
      rw [flatMap_range_map_length, hlen]
    · intro i hi1 hi2
      have hlen2 : (scale_pixels src src_width src_height src_width src_height).length =
          src_height * src_width := by
        simp only [scale_pixels]
        exact flatMap_range_map_length _ _ _
      have hx : i % src_width < src_width := Nat.mod_lt _ (by omega)
      have hy : i / src_width < src_height := by
        rw [Nat.div_lt_iff_lt_mul (by omega : 0 < src_width)]
        have : src_height * src_width = src_width * src_height := by ring
        omega
      have hidx : i / src_width * src_width + i % src_width = i := by
        have hdm := Nat.div_add_mod i src_width
        have hcomm : i / src_width * src_width = src_width * (i / src_width) := by
          ring
        omega
      have hpix : (scale_pixels src src_width src_height src_width src_height).getD
          (i / src_width * src_width + i % src_width) 0 =
          src.getD (i / src_width * src_width + i % src_width) 0 := by
        simp only [scale_pixels]
        rw [flatMap_range_map_getD _ _ _ _ _ hy hx]
        rw [hratio_w, hratio_h]
        rw [trunc_x_times_one _ (by omega), trunc_x_times_one _ (by omega)]
        rw [if_neg (by omega : ¬src_width ≤ i % src_width),
          if_neg (by omega : ¬src_height ≤ i / src_width)]
      rw [hidx] at hpix
      calc (scale_pixels src src_width src_height src_width src_height)[i] =
            (scale_pixels src src_width src_height src_width src_height).getD i 0 :=
              (List.getD_eq_getElem _ _ hi1).symm
        _ = src.getD i 0 := hpix
        _ = src[i] := List.getD_eq_getElem _ _ hi2

/-- C6 counterexample: scaling the 2×1 image `[7, 9]` to 82×1, the output
pixel at `(x, y) = (41, 0)` is `7` (the code's float arithmetic yields source
column 0), while the claim's formula `min (floor (41 * 2 / 82)) (2 - 1)`
selects source column 1, whose pixel is `9`. -/
theorem scale_pixels_not_exact_floor :
    (scale_pixels [7, 9] 2 1 82 1).getD (0 * 82 + 41) 0 = 7 ∧
    [7, 9].getD (min ((0 * 1) / 1) (1 - 1) * 2 + min ((41 * 2) / 82) (2 - 1)) 0 = 9 ∧
    (7 : Nat) ≠ 9 := by
  refine ⟨by decide, by decide, by decide⟩

/-- C6 witness: scaling a 2×2 image to the same 2×2 size returns it
unchanged. -/
theorem scale_pixels_float_semantics_witness :
    scale_pixels [3, 5, 8, 13] 2 2 2 2 = [3, 5, 8, 13] :=
  (scale_pixels_float_semantics [3, 5, 8, 13] 2 2 2 2).2.2 rfl rfl (by decide)
    (by decide) (by decide) (by decide) (by decide)

/-! ### Claim theorem: C8 -/

/-- If any chunk `send` the loop actually performed returned a non-positive
result, the loop reports -1. -/
lemma send_chunks_fail (sends : Nat → Nat → Int) (exit_flag : Bool)
    (size sent k : Nat)
    (hfail : ∃ r ∈ (send_chunks sends exit_flag size sent k).2, r ≤ 0) :
    (send_chunks sends exit_flag size sent k).1 = -1 := by
  unfold send_chunks at hfail ⊢
  by_cases h : sent < size ∧ exit_flag = false
  · simp only [dif_pos h] at hfail ⊢
    by_cases hr : sends k (chunk_request size sent) ≤ 0
    · simp only [dif_pos hr]
    · simp only [dif_neg hr] at hfail ⊢
      obtain ⟨r, hrmem, hrle⟩ := hfail
      rcases List.mem_cons.1 hrmem with rfl | hmem
      · exact absurd hrle hr
      · exact send_chunks_fail sends exit_flag size _ (k + 1) ⟨r, hmem, hrle⟩
  · simp only [dif_neg h] at hfail
    simp at hfail
termination_by size - sent
decreasing_by
  simp_wf
  omega

/-- C8: whenever any chunk `send` returns a non-positive result, `send_frame`
reports failure (-1); the sender thread then closes the client socket, clears
`client_connected` (returning to the accept-wait state) and — with TCP still
enabled and no exit requested — continues its loop rather than terminating;
the frame slot shared with the capture producer is untouched. -/
theorem network_send_failure_recovery {α : Type} (sends : Nat → Nat → Int)
    (exit_flag : Bool) (size : Nat) (slot : FrameSlot α) (st : TcpState)
    (hfail : ∃ r ∈ (send_frame sends exit_flag size).2, r ≤ 0) :
    (send_frame sends exit_flag size).1 = -1 ∧
    tcp_sender_iteration slot st (send_frame sends exit_flag size).1 true false =
      (slot,
       { client_connected := false, client_fd_open := false, screen_on := true },
       .continueLoop) := by
  have h1 : (send_frame sends exit_flag size).1 = -1 := by
    unfold send_frame at hfail ⊢
    by_cases hs : sends 0 frame_sync.length ≠ (frame_sync.length : Int)
    · simp only [if_pos hs]
    · simp only [if_neg hs] at hfail ⊢
      by_cases hh : sends 1 sizeof_frame_header ≠ (sizeof_frame_header : Int)
      · simp only [if_pos hh]
      · simp only [if_neg hh] at hfail ⊢
        exact send_chunks_fail sends exit_flag size 0 2 hfail
  refine ⟨h1, ?_⟩
  rw [h1]
  rfl

/-- C8 witness: with an oracle whose first chunk `send` returns 0 (sync and
header sends succeed), `send_frame` fails and the sender-thread iteration
disconnects the client and keeps looping. -/
theorem network_send_failure_recovery_witness :
    (send_frame (fun k req => if 2 ≤ k then (0 : Int) else (req : Int))
      false 10).1 = -1 ∧
    tcp_sender_iteration (⟨none, false⟩ : FrameSlot Nat) ⟨true, true, false⟩
      ((send_frame (fun k req => if 2 ≤ k then (0 : Int) else (req : Int))
        false 10).1) true false =
      (⟨none, false⟩, ⟨false, false, true⟩, .continueLoop) := by
  refine network_send_failure_recovery _ false 10 _ _ ?_
  have hev : send_frame (fun k req => if 2 ≤ k then (0 : Int) else (req : Int))
      false 10 = (-1, [0]) := by
    unfold send_frame
    norm_num
    unfold send_chunks
    norm_num [chunk_request, CHUNK_SIZE]
  rw [hev]
  exact ⟨0, by norm_num, by norm_num⟩

end MxCamera
